import Mathlib

/-!
Shallow embedding of the analytics core of a stock dashboard: the technical
indicators of indicators.py and the wallet / prediction simulation engine of
simulation_lib.py.

Prices are modelled as rationals.  A pandas column is a `List (Option ℚ)` in
date order, where `none` stands for NaN/missing; a DataFrame is an ordered
association list of column name to column.
-/

/-- A pandas column: entries in date order, `none` = NaN. -/
abbrev Col := List (Option ℚ)

/-- A pandas DataFrame: ordered association list of column name to column. -/
abbrev Table := List (String × Col)

/-! ## String helpers (Python `in` and `str.endswith`) -/

/-- Whether `pat` occurs as a contiguous run inside `l` (Python `pat in s`). -/
def charsHasSub (pat : List Char) : List Char → Bool
  | [] => pat.isEmpty
  | c :: rest => pat.isPrefixOf (c :: rest) || charsHasSub pat rest

/-- Python substring test `pat in s`. -/
def strHasSub (pat s : String) : Bool := charsHasSub pat.data s.data

/-- Python `s.endswith(suf)`. -/
def strEndsWithB (s suf : String) : Bool := suf.data.reverse.isPrefixOf s.data.reverse

/-- The skip test of `add_moving_average`: `'_MA' in ticker or '_52w' in ticker`. -/
def maSkip (name : String) : Bool := strHasSub "_MA" name || strHasSub "_52w" name

/-- The skip test of `add_52w_high_low` and `calculate_rsi`:
`ticker.endswith(('_MA', '_52w_high', '_52w_low'))`. -/
def derivedSuffixSkip (name : String) : Bool :=
  strEndsWithB name "_MA" || strEndsWithB name "_52w_high" || strEndsWithB name "_52w_low"

/-! ## DataFrame access -/

/-- `df[name]`: the first column bearing the name. -/
def getCol? (df : Table) (name : String) : Option Col :=
  (df.find? (fun p => p.1 == name)).map (fun p => p.2)

/-- `df[name] = c`: pandas column assignment — replaces the column when the
name already exists, otherwise appends it on the right. -/
def setCol (df : Table) (name : String) (c : Col) : Table :=
  if df.any (fun p => p.1 == name) then
    df.map (fun p => if p.1 == name then (name, c) else p)
  else df ++ [(name, c)]

/-! ## Rolling windows (`series.rolling(window=win, min_periods=1)`) -/

/-- Trailing window aggregation: at index `i` the window holds the up to `win`
entries ending at `i`; NaN entries are dropped by the aggregator and the
result is NaN when no valid entry remains (`min_periods=1`). -/
def rollingApply (win : Nat) (f : List ℚ → ℚ) (col : Col) : Col :=
  (List.range col.length).map (fun i =>
    let valid := ((col.take (i + 1)).drop (i + 1 - win)).filterMap id
    if valid.isEmpty then none else some (f valid))

def meanQ (l : List ℚ) : ℚ := l.sum / l.length

def maxQ : List ℚ → ℚ
  | [] => 0
  | x :: xs => xs.foldl max x

def minQ : List ℚ → ℚ
  | [] => 0
  | x :: xs => xs.foldl min x

def rollingMean (win : Nat) : Col → Col := rollingApply win meanQ
def rollingMax (win : Nat) : Col → Col := rollingApply win maxQ
def rollingMin (win : Nat) : Col → Col := rollingApply win minQ

/-! ## indicators.add_moving_average

The source iterates a snapshot `cols = list(df.columns)`, skips names with
`'_MA' in ticker or '_52w' in ticker`, and for each period `p` assigns
`df[f'{ticker}_MA{p}'] = df[ticker].rolling(window=p, min_periods=1).mean()`,
returning `df` itself.  A single int period is normalised to a one-element
list; here the argument is already a list.  The `none` branch of the lookup
is unreachable (snapshot names are never removed). -/

def add_moving_average (df : Table) (ma_periods : List Nat) : Table :=
  (df.map (fun p => p.1)).foldl (fun acc ticker =>
    if maSkip ticker then acc
    else ma_periods.foldl (fun acc2 period =>
      match getCol? acc2 ticker with
      | some c => setCol acc2 (ticker ++ "_MA" ++ toString period) (rollingMean period c)
      | none => acc2) acc) df

/-- In the source, `add_moving_average` assigns columns onto its argument
(`df[...] = ...`) and returns that same object: after the call the caller's
table is the function's result, not the original input. -/
def callerTableAfterAddMA (df : Table) (ma_periods : List Nat) : Table :=
  add_moving_average df ma_periods

/-! ## indicators.add_52w_high_low

Iterates the columns present at entry (`for ticker in df.columns` iterates
the Index object captured at loop start), skips names ending with `'_MA'`,
`'_52w_high'` or `'_52w_low'`, and assigns rolling max then rolling min over
a 252-observation window, each read of `df[ticker]` taken from the current
table as in the source. -/

def add_52w_high_low (df : Table) : Table :=
  (df.map (fun p => p.1)).foldl (fun acc ticker =>
    if derivedSuffixSkip ticker then acc
    else
      let acc1 := match getCol? acc ticker with
        | some c => setCol acc (ticker ++ "_52w_high") (rollingMax 252 c)
        | none => acc
      match getCol? acc1 ticker with
      | some c => setCol acc1 (ticker ++ "_52w_low") (rollingMin 252 c)
      | none => acc1) df

/-- Caller-visible table after `add_52w_high_low` (in-place assignment in the
source, same object returned). -/
def callerTableAfterAdd52w (df : Table) : Table := add_52w_high_low df

/-! ## indicators.calculate_rsi

Per non-skipped column: drop NaNs; `delta = series.diff()` (NaN at the first
position, then successive differences); `up`/`down` clips; Wilder smoothing
`ewm(alpha=1/14, adjust=False).mean()` — on a series whose head is NaN the
recursion seeds at the first valid value, the head staying NaN; then
`rsi = 100 - 100/(1+up/down)`, the override `rsi[ma_down == 0] = 100` and
then `rsi[(ma_up == 0) & (ma_down == 0)] = 50`.  The NaN head never matches
either mask (`NaN == 0` is false).  Columns with no data after the drop are
omitted; an empty dict yields an empty DataFrame.  (`pd.DataFrame(rsi_frames)`
aligns the per-column date indices, which can only insert further NaN
entries; the embedding keeps each column over its own post-drop axis.) -/

def deltasOf (s : List ℚ) : List ℚ := List.zipWith (fun a b => a - b) s.tail s

def upOf (s : List ℚ) : List ℚ := (deltasOf s).map (fun d => max d 0)

def downOf (s : List ℚ) : List ℚ := (deltasOf s).map (fun d => max (-d) 0)

/-- `ewm(alpha, adjust=False).mean()` over the valid part of the series (the
NaN head of `diff` is handled by `rsiSeries`): `y₀ = x₀`,
`yᵢ = (1-α)·yᵢ₋₁ + α·xᵢ`. -/
def wilderSmooth (alpha : ℚ) : List ℚ → List ℚ
  | [] => []
  | u :: us => us.scanl (fun m x => (1 - alpha) * m + alpha * x) u

def maUpOf (s : List ℚ) : List ℚ := wilderSmooth (1/14) (upOf s)

def maDownOf (s : List ℚ) : List ℚ := wilderSmooth (1/14) (downOf s)

/-- `100 - 100/(1 + rs)` with `rs = ma_up / ma_down`.  Where `ma_down = 0`
the float code produces inf/NaN; both masks below overwrite exactly those
positions, so the junk value (division by zero is 0 in ℚ) is never kept. -/
def rsiRaw (mu md : ℚ) : ℚ := 100 - 100 / (1 + mu / md)

/-- `rsi[ma_down == 0] = 100.0`. -/
def maskDownZero (mds rsis : List ℚ) : List ℚ :=
  List.zipWith (fun md r => if md = 0 then (100 : ℚ) else r) mds rsis

/-- `rsi[(ma_up == 0) & (ma_down == 0)] = 50.0`, applied after `maskDownZero`. -/
def maskBothZero (mus mds rsis : List ℚ) : List ℚ :=
  (mus.zip (mds.zip rsis)).map (fun t => if t.1 = 0 ∧ t.2.1 = 0 then (50 : ℚ) else t.2.2)

/-- RSI over one NaN-free series (the head entry of `diff` is NaN, so the
head of the result stays NaN). -/
def rsiSeries (s : List ℚ) : Col :=
  none :: (maskBothZero (maUpOf s) (maDownOf s)
    (maskDownZero (maDownOf s) (List.zipWith rsiRaw (maUpOf s) (maDownOf s)))).map some

def calculate_rsi (df : Table) : Table :=
  df.filterMap (fun c =>
    if derivedSuffixSkip c.1 then none
    else
      let series := c.2.filterMap id
      if series.isEmpty then none
      else some (c.1, rsiSeries series))

/-! ## Dates and calendar arithmetic (datetime / dateutil.relativedelta) -/

structure Date where
  y : Nat
  m : Nat
  d : Nat
  deriving DecidableEq

/-- Calendar (lexicographic) order, modelling datetime `<=`. -/
def dateLe (a b : Date) : Prop :=
  a.y < b.y ∨ (a.y = b.y ∧ (a.m < b.m ∨ (a.m = b.m ∧ a.d ≤ b.d)))

/-- Strict calendar order. -/
def dateLt (a b : Date) : Prop :=
  a.y < b.y ∨ (a.y = b.y ∧ (a.m < b.m ∨ (a.m = b.m ∧ a.d < b.d)))

instance (a b : Date) : Decidable (dateLe a b) := by unfold dateLe; exact inferInstance

instance (a b : Date) : Decidable (dateLt a b) := by unfold dateLt; exact inferInstance

def isLeap (y : Nat) : Bool := (y % 4 == 0 && y % 100 != 0) || y % 400 == 0

def daysInMonth (y m : Nat) : Nat :=
  if m = 2 then (if isLeap y then 29 else 28)
  else if m = 4 ∨ m = 6 ∨ m = 9 ∨ m = 11 then 30 else 31

/-- `relativedelta(months=k)`: shift the month, clamping the day into the
target month (`relativedelta(years=1)` is the 12-month case). -/
def addMonths (dt : Date) (k : Nat) : Date :=
  let t := dt.y * 12 + (dt.m - 1) + k
  let y2 := t / 12
  let m2 := t % 12 + 1
  { y := y2, m := m2, d := min dt.d (daysInMonth y2 m2) }

def nextDay (dt : Date) : Date :=
  if dt.d < daysInMonth dt.y dt.m then { dt with d := dt.d + 1 }
  else if dt.m < 12 then { y := dt.y, m := dt.m + 1, d := 1 }
  else { y := dt.y + 1, m := 1, d := 1 }

/-- `timedelta(days=k)`. -/
def addDays (dt : Date) : Nat → Date
  | 0 => dt
  | k + 1 => addDays (nextDay dt) k

/-! ## simulation_lib.Wallet -/

inductive Freq where
  | monthly
  | quarterly
  | annually
  | noneFreq
  deriving DecidableEq

structure Wallet where
  initial_capital : ℚ
  contribution_amount : ℚ
  contribution_freq : Freq

/-- `Wallet._get_next_contribution_date(start_date, last_date)` (the
`start_date` argument is taken but unused in the source). -/
def Wallet.get_next_contribution_date (w : Wallet) (_start_date last_date : Date) : Date :=
  match w.contribution_freq with
  | .monthly => addMonths last_date 1
  | .quarterly => addMonths last_date 3
  | .annually => addMonths last_date 12
  | .noneFreq => addDays last_date 36500

/-- The calendar length of one contribution period, in months. -/
def monthsOf : Freq → Nat
  | .monthly => 1
  | .quarterly => 3
  | .annually => 12
  | .noneFreq => 0

/-- A row of the input price frame: (Date, Price). -/
abbrev Row := Date × ℚ

/-- A row of the output: (Date, Portfolio Value, Invested Capital). -/
abbrev OutRow := Date × ℚ × ℚ

structure SimState where
  shares : ℚ
  invested : ℚ
  next_contribution_date : Date

def rowLe (a b : Row) : Prop := dateLe a.1 b.1

instance : DecidableRel rowLe := fun a b => by unfold rowLe; exact inferInstance

instance : IsTotal Row rowLe :=
  ⟨by intro a b; unfold rowLe dateLe; omega⟩

instance : IsTrans Row rowLe :=
  ⟨by intro a b c; unfold rowLe dateLe; omega⟩

/-- Strict date order on rows (used only to show sorted outputs are unique). -/
def rowLt (a b : Row) : Prop := dateLt a.1 b.1

instance : IsAntisymm Row rowLt :=
  ⟨by
    intro a b h1 h2
    exfalso
    unfold rowLt dateLt at h1 h2
    omega⟩

/-- `df.sort_values('Date')`: modelled by a deterministic stable sort on the
date key (rows with equal dates keep their relative input order). -/
def sortRows (l : List Row) : List Row := List.insertionSort rowLe l

/-- One iteration of the `for idx, row in df.iterrows()` loop: contribution
check (`contribution_freq != 'None' and current_date >= next_contribution_date`,
purchase only when `price > 0`, schedule advanced by one step either way),
then the output row for this date. -/
def Wallet.simStep (w : Wallet) (start_date : Date) (st : SimState) (row : Row) :
    SimState × OutRow :=
  let current_date := row.1
  let price := row.2
  let st1 :=
    if w.contribution_freq ≠ Freq.noneFreq ∧ dateLe st.next_contribution_date current_date then
      let st2 :=
        if 0 < price then
          { st with shares := st.shares + w.contribution_amount / price,
                    invested := st.invested + w.contribution_amount }
        else st
      { st2 with
        next_contribution_date := w.get_next_contribution_date start_date st.next_contribution_date }
    else st
  (st1, (current_date, st1.shares * price, st1.invested))

def Wallet.runSim (w : Wallet) (start_date : Date) : SimState → List Row → List OutRow
  | _, [] => []
  | st, r :: rs =>
    let p := w.simStep start_date st r
    p.2 :: w.runSim start_date p.1 rs

/-- `Wallet.simulate_portfolio`: sort by date, seed the schedule one period
after the first date, invest the initial capital at the first price when it
is positive, then iterate the rows.  (On an empty frame the source raises an
IndexError at `iloc[0]`; the embedding returns the empty output there.) -/
def Wallet.simulate_portfolio (w : Wallet) (price_df : List Row) : List OutRow :=
  match sortRows price_df with
  | [] => []
  | first :: rest =>
    let start_date := first.1
    let next0 := w.get_next_contribution_date start_date start_date
    let initial_price := first.2
    let st0 : SimState :=
      if 0 < initial_price then
        { shares := w.initial_capital / initial_price,
          invested := w.initial_capital,
          next_contribution_date := next0 }
      else { shares := 0, invested := 0, next_contribution_date := next0 }
    w.runSim start_date st0 (first :: rest)

/-! ## simulation_lib.LinearRegressionPredictor -/

/-- `date.toordinal()`: days since 0001-01-01 (that day is 1). -/
def daysBeforeYear (y : Nat) : Nat :=
  365 * (y - 1) + (y - 1) / 4 - (y - 1) / 100 + (y - 1) / 400

def daysBeforeMonth (y m : Nat) : Nat :=
  ((List.range (m - 1)).map (fun i => daysInMonth y (i + 1))).sum

def Date.toordinal (dt : Date) : Nat :=
  daysBeforeYear dt.y + daysBeforeMonth dt.y dt.m + dt.d

/-- Trained predictor state: fitted line and residual dispersion. -/
structure LinearRegressionPredictor where
  coef : ℚ
  intercept : ℚ
  std_dev : ℚ

/-- `LinearRegressionPredictor.predict(future_dates)`: the fitted line at each
date ordinal, with `lower = pred - 2*std_dev` and `upper = pred + 2*std_dev`.
The source method takes no confidence parameter; the multiplier 2 is a
literal in the code. -/
def LinearRegressionPredictor.predict (mdl : LinearRegressionPredictor)
    (future_dates : List Date) : List ℚ × List ℚ × List ℚ :=
  let preds := future_dates.map (fun dt => mdl.coef * (Date.toordinal dt : ℚ) + mdl.intercept)
  (preds, preds.map (fun x => x - 2 * mdl.std_dev), preds.map (fun x => x + 2 * mdl.std_dev))

/-- The fit performed by `train`: sklearn's `LinearRegression` on the single
feature `toordinal(date)` — centered ordinary least squares, with the
minimum-norm solution (slope 0) when the feature has zero variance — and the
residual dispersion `np.std(residuals)`.  Over ℚ the final square root of
`np.std` cannot be taken; the third component is the residual *variance*
(`std_dev²`), which is zero exactly when `std_dev` is.  Returns
(coef, intercept, residual variance). -/
def fitOLS (dates : List Date) (prices : List ℚ) : ℚ × ℚ × ℚ :=
  let xs := dates.map (fun dt => (Date.toordinal dt : ℚ))
  let n : ℚ := xs.length
  let xbar := xs.sum / n
  let ybar := prices.sum / n
  let sxx := (xs.map (fun x => (x - xbar) ^ 2)).sum
  let sxy := (List.zipWith (fun x yv => (x - xbar) * (yv - ybar)) xs prices).sum
  let coef := if sxx = 0 then 0 else sxy / sxx
  let intercept := ybar - coef * xbar
  let residuals := List.zipWith (fun x yv => yv - (coef * x + intercept)) xs prices
  let var := (residuals.map (fun r => r ^ 2)).sum / n
  (coef, intercept, var)

/-- `LinearRegressionPredictor.train(dates, prices)`: the source performs no
validation of its own; the only failures are raised inside the fitting
library (empty input or mismatched lengths).  Any other input — including a
single sample or a single distinct date — is fitted. -/
def LinearRegressionPredictor.train (dates : List Date) (prices : List ℚ) :
    Except String (ℚ × ℚ × ℚ) :=
  if dates.length = 0 ∨ dates.length ≠ prices.length then
    Except.error "fitting library rejects empty or mismatched input"
  else Except.ok (fitOLS dates prices)

/-! ## Helper lemmas -/

lemma zipWith_sub_map_add_sub (c : ℚ) :
    ∀ l : List ℚ, List.zipWith (fun u v => u - v)
      (l.map (fun x => x + c)) (l.map (fun x => x - c)) = List.replicate l.length (2 * c)
  | [] => rfl
  | x :: xs => by
      have hx : x + c - (x - c) = 2 * c := by ring
      simp only [List.map_cons, List.zipWith_cons_cons, List.length_cons,
        List.replicate_succ, zipWith_sub_map_add_sub c xs, hx]

/-- Claim C1 (code behavior at the failing interface): for every trained
predictor state and every requested list of future dates, the band returned
by `predict` has width exactly `2·σ` on each side — `4·σ` between the
bounds — independent of any requested confidence level; `predict` accepts no
confidence parameter at all, so the orchestrator call
`model.predict(dates, confidence_interval=...)` cannot be honoured. -/
theorem c1_prediction_band_hardcoded (mdl : LinearRegressionPredictor) (ds : List Date) :
    List.zipWith (fun u v => u - v) (mdl.predict ds).2.2 (mdl.predict ds).2.1 =
      List.replicate ds.length (4 * mdl.std_dev) := by
  have h := zipWith_sub_map_add_sub (2 * mdl.std_dev)
    (ds.map (fun dt => mdl.coef * (Date.toordinal dt : ℚ) + mdl.intercept))
  have h4 : 2 * (2 * mdl.std_dev) = 4 * mdl.std_dev := by ring
  simpa [LinearRegressionPredictor.predict, List.length_map, h4] using h

/-- Claim C2 (failing input): after `add_moving_average` adds `AAPL_MA10`,
both `add_52w_high_low` and `calculate_rsi` process that derived column —
the `endswith('_MA')` skip never matches a real moving-average column name
`..._MA{period}` — producing `AAPL_MA10_52w_high` / `AAPL_MA10_52w_low`
columns and an RSI column for `AAPL_MA10`. -/
theorem c2_ma_column_not_skipped :
    ((add_52w_high_low (add_moving_average [("AAPL", [some 1, some 2])] [10])).map
        (fun p => p.1) =
      ["AAPL", "AAPL_MA10", "AAPL_52w_high", "AAPL_52w_low",
        "AAPL_MA10_52w_high", "AAPL_MA10_52w_low"]) ∧
    ((calculate_rsi (add_moving_average [("AAPL", [some 1, some 2])] [10])).map
        (fun p => p.1) =
      ["AAPL", "AAPL_MA10"]) := by
  constructor
  · decide
  · decide

lemma mask_stages_getElem (mus : List ℚ) :
    ∀ (mds : List ℚ) (i : Nat) (mu md : ℚ),
      mus[i]? = some mu → mds[i]? = some md → md = 0 →
      (maskBothZero mus mds
          (maskDownZero mds (List.zipWith rsiRaw mus mds)))[i]? =
        some (if mu = 0 then 50 else 100) := by
  induction mus with
  | nil => intro mds i mu md h1 _ _; simp at h1
  | cons a us ih =>
    intro mds i mu md h1 h2 h3
    cases mds with
    | nil => simp at h2
    | cons b ds =>
      cases i with
      | zero =>
        simp only [List.getElem?_cons_zero, Option.some.injEq] at h1 h2
        subst h1; subst h2; subst h3
        simp only [maskBothZero, maskDownZero, List.zipWith_cons_cons, List.zip_cons_cons,
          List.map_cons, List.getElem?_cons_zero, Option.some.injEq]
        by_cases hmu : a = 0 <;> simp [hmu]
      | succ j =>
        simp only [List.getElem?_cons_succ] at h1 h2
        simpa only [maskBothZero, maskDownZero, List.zipWith_cons_cons, List.zip_cons_cons,
          List.map_cons, List.getElem?_cons_succ] using ih ds j mu md h1 h2 h3

/-- Claim C6: in `calculate_rsi`, wherever the Wilder-smoothed down series and
up series are both 0, the RSI value is 50, and wherever the smoothed down
series is 0 but the smoothed up series is not, the RSI value is 100 (the
`ma_down == 0` mask is applied first, the `(ma_up == 0) & (ma_down == 0)`
mask second, so 50 takes precedence at no-movement positions). -/
theorem c6_rsi_edge_case_precedence (s : List ℚ) (i : Nat) (mu md : ℚ)
    (h1 : (maUpOf s)[i]? = some mu) (h2 : (maDownOf s)[i]? = some md) (h3 : md = 0) :
    (rsiSeries s)[i + 1]? = some (some (if mu = 0 then 50 else 100)) := by
  have h := mask_stages_getElem (maUpOf s) (maDownOf s) i mu md h1 h2 h3
  simp only [rsiSeries, List.getElem?_cons_succ, List.getElem?_map, h, Option.map_some']

/-- Witness for C6 at the concrete series [1, 2]: the single smoothed
down-move is 0 while the smoothed up-move is 1, and the RSI at the position
after the NaN head is 100. -/
theorem c6_rsi_edge_case_precedence_witness :
    (maUpOf [1, 2])[0]? = some 1 ∧ (maDownOf [1, 2])[0]? = some 0 ∧
      (rsiSeries [1, 2])[1]? = some (some 100) := by
  have hup : (maUpOf [1, 2])[0]? = some 1 := by
    norm_num [maUpOf, upOf, deltasOf, wilderSmooth, max_def]
  have hdown : (maDownOf [1, 2])[0]? = some 0 := by
    norm_num [maDownOf, downOf, deltasOf, wilderSmooth, max_def]
  refine ⟨hup, hdown, ?_⟩
  have h := c6_rsi_edge_case_precedence [1, 2] 0 1 0 hup hdown rfl
  have h2 : (if (1 : ℚ) = 0 then (50 : ℚ) else 100) = 100 := by norm_num
  rw [h2] at h
  exact h

/-- Claim C7: with a Monthly, Quarterly or Annually schedule, a processed row
whose date has reached the next scheduled contribution date receives exactly
one contribution (the invested capital grows by exactly
`contribution_amount`, when the price is positive) and the schedule advances
by exactly one calendar period from its previous value — whatever the gap to
the row's date — while a row before the scheduled date changes nothing. -/
theorem c7_contribution_schedule_step (w : Wallet) (start_date : Date) (st : SimState)
    (dcur : Date) (price : ℚ)
    (hf : w.contribution_freq = Freq.monthly ∨ w.contribution_freq = Freq.quarterly ∨
      w.contribution_freq = Freq.annually) :
    (dateLe st.next_contribution_date dcur →
      (w.simStep start_date st (dcur, price)).1.next_contribution_date =
          addMonths st.next_contribution_date (monthsOf w.contribution_freq) ∧
        (w.simStep start_date st (dcur, price)).1.invested =
          st.invested + (if 0 < price then w.contribution_amount else 0)) ∧
    (¬ dateLe st.next_contribution_date dcur →
      (w.simStep start_date st (dcur, price)).1 = st) := by
  constructor
  · intro hle
    have hne : w.contribution_freq ≠ Freq.noneFreq := by
      rcases hf with h | h | h <;> simp [h]
    rw [Wallet.simStep, if_pos ⟨hne, hle⟩]
    constructor
    · rcases hf with h | h | h <;>
        simp [Wallet.get_next_contribution_date, h, monthsOf]
    · by_cases hp : 0 < price <;> simp [hp]
  · intro hnle
    rw [Wallet.simStep, if_neg (fun hc => hnle hc.2)]

/-- Witness for C7: Monthly schedule, next contribution scheduled 2023-01-01,
processed row dated 2023-03-15 (two period boundaries past the schedule):
exactly one contribution of 100 is applied and the schedule advances to
2023-02-01 — one month, not a catch-up to the row's date. -/
theorem c7_contribution_schedule_step_witness :
    dateLe (⟨2023, 1, 1⟩ : Date) ⟨2023, 3, 15⟩ ∧
      ((⟨0, 100, Freq.monthly⟩ : Wallet).simStep ⟨2023, 1, 1⟩
          ⟨0, 0, ⟨2023, 1, 1⟩⟩ (⟨2023, 3, 15⟩, 10)).1.next_contribution_date =
        ⟨2023, 2, 1⟩ ∧
      ((⟨0, 100, Freq.monthly⟩ : Wallet).simStep ⟨2023, 1, 1⟩
          ⟨0, 0, ⟨2023, 1, 1⟩⟩ (⟨2023, 3, 15⟩, 10)).1.invested = 100 := by
  have h := (c7_contribution_schedule_step ⟨0, 100, Freq.monthly⟩ ⟨2023, 1, 1⟩
    ⟨0, 0, ⟨2023, 1, 1⟩⟩ ⟨2023, 3, 15⟩ 10 (Or.inl rfl)).1 (by decide)
  refine ⟨by decide, ?_, ?_⟩
  · rw [h.1]; decide
  · rw [h.2]; norm_num

/-- Claim C9 (amended): `train` performs no fewer-than-2-distinct-dates
validation of its own — every nonempty input of matching lengths (including
a single sample, hence a single distinct date) is fitted successfully; the
only failures are the fitting library's own, on empty or mismatched input. -/
theorem c9_train_no_distinct_date_validation (dates : List Date) (prices : List ℚ)
    (hne : dates ≠ []) (hlen : dates.length = prices.length) :
    LinearRegressionPredictor.train dates prices = Except.ok (fitOLS dates prices) := by
  have hcond : ¬(dates.length = 0 ∨ dates.length ≠ prices.length) := by
    push_neg
    exact ⟨fun h => hne (List.length_eq_zero.mp h), hlen⟩
  unfold LinearRegressionPredictor.train
  rw [if_neg hcond]

/-- Witness for C9 (amended): a single sample on 2023-01-01 at price 5 trains
to the degenerate model (slope 0, intercept 5, zero residual dispersion). -/
theorem c9_train_no_distinct_date_validation_witness :
    LinearRegressionPredictor.train [⟨2023, 1, 1⟩] [(5 : ℚ)] = Except.ok (0, 5, 0) := by
  rw [c9_train_no_distinct_date_validation [⟨2023, 1, 1⟩] [(5 : ℚ)] (by decide) rfl]
  have hto : Date.toordinal ⟨2023, 1, 1⟩ = 738521 := by decide
  norm_num [fitOLS, hto]

/-- Counterexample for C9 as stated: training on exactly one distinct date
(2020-06-15, price 7) is not rejected with a validation error — it returns a
fitted model. -/
theorem c9_single_date_trains_successfully :
    LinearRegressionPredictor.train [⟨2020, 6, 15⟩] [(7 : ℚ)] = Except.ok (0, 7, 0) := by
  unfold LinearRegressionPredictor.train
  rw [if_neg (by norm_num)]
  have hto : Date.toordinal ⟨2020, 6, 15⟩ = 737591 := by decide
  norm_num [fitOLS, hto]

lemma scanl_nonneg (a : ℚ) (ha0 : 0 ≤ a) (ha1 : a ≤ 1) :
    ∀ (l : List ℚ) (init : ℚ), 0 ≤ init → (∀ x ∈ l, 0 ≤ x) →
      ∀ y ∈ List.scanl (fun m x => (1 - a) * m + a * x) init l, 0 ≤ y := by
  intro l
  induction l with
  | nil =>
    intro init hinit _ y hy
    simp only [List.scanl_nil, List.mem_singleton] at hy
    exact hy ▸ hinit
  | cons x xs ih =>
    intro init hinit hall y hy
    rw [List.scanl_cons] at hy
    rcases List.mem_cons.mp hy with rfl | hy
    · exact hinit
    · refine ih ((1 - a) * init + a * x) ?_ (fun z hz => hall z (List.mem_cons_of_mem x hz)) y hy
      have hx0 : 0 ≤ x := hall x (List.mem_cons_self x xs)
      have h1a : 0 ≤ 1 - a := by linarith
      positivity

lemma wilderSmooth_nonneg (a : ℚ) (ha0 : 0 ≤ a) (ha1 : a ≤ 1) (l : List ℚ)
    (hall : ∀ x ∈ l, 0 ≤ x) : ∀ y ∈ wilderSmooth a l, 0 ≤ y := by
  cases l with
  | nil => simp [wilderSmooth]
  | cons u us =>
    intro y hy
    unfold wilderSmooth at hy
    exact scanl_nonneg a ha0 ha1 us u (hall u (List.mem_cons_self u us))
      (fun z hz => hall z (List.mem_cons_of_mem u hz)) y hy

lemma upOf_nonneg (s : List ℚ) : ∀ x ∈ upOf s, 0 ≤ x := by
  intro x hx
  obtain ⟨d, _, rfl⟩ := List.mem_map.mp hx
  exact le_max_right d 0

lemma downOf_nonneg (s : List ℚ) : ∀ x ∈ downOf s, 0 ≤ x := by
  intro x hx
  obtain ⟨d, _, rfl⟩ := List.mem_map.mp hx
  exact le_max_right (-d) 0

lemma maUpOf_nonneg (s : List ℚ) : ∀ y ∈ maUpOf s, 0 ≤ y :=
  wilderSmooth_nonneg (1/14) (by norm_num) (by norm_num) (upOf s) (upOf_nonneg s)

lemma maDownOf_nonneg (s : List ℚ) : ∀ y ∈ maDownOf s, 0 ≤ y :=
  wilderSmooth_nonneg (1/14) (by norm_num) (by norm_num) (downOf s) (downOf_nonneg s)

lemma rsi_value_bound (mu md : ℚ) (hmu : 0 ≤ mu) (hmd : 0 ≤ md) :
    0 ≤ (if mu = 0 ∧ md = 0 then (50 : ℚ) else if md = 0 then 100 else rsiRaw mu md) ∧
      (if mu = 0 ∧ md = 0 then (50 : ℚ) else if md = 0 then 100 else rsiRaw mu md) ≤ 100 := by
  by_cases h1 : mu = 0 ∧ md = 0
  · rw [if_pos h1]; norm_num
  · rw [if_neg h1]
    by_cases h2 : md = 0
    · rw [if_pos h2]; norm_num
    · rw [if_neg h2]
      have hmd' : 0 < md := lt_of_le_of_ne hmd (Ne.symm h2)
      have hx : 0 ≤ mu / md := div_nonneg hmu hmd'.le
      have h1x : (0 : ℚ) < 1 + mu / md := by linarith
      have hle : 100 / (1 + mu / md) ≤ 100 := div_le_self (by norm_num) (by linarith)
      have hge : 0 ≤ 100 / (1 + mu / md) := div_nonneg (by norm_num) h1x.le
      unfold rsiRaw
      constructor <;> linarith

lemma mask_stages_bound (mus : List ℚ) :
    ∀ (mds : List ℚ), (∀ x ∈ mus, 0 ≤ x) → (∀ x ∈ mds, 0 ≤ x) →
      ∀ r ∈ maskBothZero mus mds
        (maskDownZero mds (List.zipWith rsiRaw mus mds)), 0 ≤ r ∧ r ≤ 100 := by
  induction mus with
  | nil =>
    intro mds _ _ r hr
    simp [maskBothZero] at hr
  | cons a us ih =>
    intro mds hmu hmd r hr
    cases mds with
    | nil => simp [maskBothZero, maskDownZero] at hr
    | cons b ds =>
      simp only [maskBothZero, maskDownZero, List.zipWith_cons_cons, List.zip_cons_cons,
        List.map_cons, List.mem_cons] at hr
      rcases hr with rfl | hr
      · exact rsi_value_bound a b (hmu a (List.mem_cons_self a us)) (hmd b (List.mem_cons_self b ds))
      · exact ih ds (fun x hx => hmu x (List.mem_cons_of_mem a hx))
          (fun x hx => hmd x (List.mem_cons_of_mem b hx)) r hr

/-- Claim C4: every (non-NaN) value present in the output of `calculate_rsi`
lies in the closed interval [0, 100], for every input table. -/
theorem c4_rsi_bounded (df : Table) (name : String) (col : Col)
    (hmem : (name, col) ∈ calculate_rsi df) (x : ℚ) (hx : some x ∈ col) :
    0 ≤ x ∧ x ≤ 100 := by
  unfold calculate_rsi at hmem
  obtain ⟨c, _, hcc⟩ := List.mem_filterMap.mp hmem
  by_cases hskip : derivedSuffixSkip c.1
  · simp [hskip] at hcc
  · by_cases hemp : (c.2.filterMap id).isEmpty
    · simp [hskip, hemp] at hcc
    · simp only [hskip, Bool.false_eq_true, if_false, hemp, Option.some.injEq,
        Prod.mk.injEq] at hcc
      obtain ⟨_, hcol⟩ := hcc
      subst hcol
      rcases List.mem_cons.mp hx with h | h
      · exact absurd h (by simp)
      · obtain ⟨r, hr, hrx⟩ := List.mem_map.mp h
        obtain rfl : r = x := Option.some.inj hrx
        exact mask_stages_bound (maUpOf (c.2.filterMap id)) (maDownOf (c.2.filterMap id))
          (maUpOf_nonneg _) (maDownOf_nonneg _) r hr

lemma calculate_rsi_eval_one_two :
    calculate_rsi [("A", [some 1, some 2])] = [("A", [none, some 100])] := by
  have hskip : derivedSuffixSkip "A" = false := by decide
  norm_num [calculate_rsi, List.filterMap_cons, hskip, rsiSeries, maUpOf, maDownOf, upOf,
    downOf, deltasOf, wilderSmooth, maskBothZero, maskDownZero, rsiRaw, max_def]
  rw [if_neg (by simp)]

/-- Witness for C4 at the table with one column "A" = [1, 2]: its RSI column
is [NaN, 100] and the present value 100 lies in [0, 100]. -/
theorem c4_rsi_bounded_witness :
    (("A", ([none, some 100] : Col)) ∈ calculate_rsi [("A", [some 1, some 2])]) ∧
      0 ≤ (100 : ℚ) ∧ (100 : ℚ) ≤ 100 := by
  have hmem : ("A", ([none, some 100] : Col)) ∈ calculate_rsi [("A", [some 1, some 2])] := by
    rw [calculate_rsi_eval_one_two]
    exact List.mem_singleton.mpr rfl
  exact ⟨hmem, c4_rsi_bounded [("A", [some 1, some 2])] "A" [none, some 100] hmem 100 (by simp)⟩

lemma filterMap_id_replicate_some (P : ℚ) :
    ∀ n, (List.replicate n (some P)).filterMap id = List.replicate n P
  | 0 => rfl
  | n + 1 => by
    simp only [List.replicate_succ, List.filterMap_cons, id_eq,
      filterMap_id_replicate_some P n]

lemma zipWith_replicate_min {α β γ : Type} (f : α → β → γ) (x : α) (y : β) :
    ∀ m k, List.zipWith f (List.replicate m x) (List.replicate k y) =
      List.replicate (min m k) (f x y)
  | 0, _ => by simp
  | _ + 1, 0 => by simp
  | m + 1, k + 1 => by
    simp only [List.replicate_succ, List.zipWith_cons_cons, Nat.succ_min_succ,
      zipWith_replicate_min f x y m k]

lemma scanl_const_fix (f : ℚ → ℚ → ℚ) (x y : ℚ) (h : f x y = x) :
    ∀ m, List.scanl f x (List.replicate m y) = List.replicate (m + 1) x
  | 0 => rfl
  | m + 1 => by
    rw [List.replicate_succ, List.scanl_cons, h, scanl_const_fix f x y h m]
    rfl

lemma wilderSmooth_replicate_zero (a : ℚ) :
    ∀ m, wilderSmooth a (List.replicate m 0) = List.replicate m 0
  | 0 => rfl
  | m + 1 => by
    rw [List.replicate_succ, wilderSmooth,
      scanl_const_fix (fun m x => (1 - a) * m + a * x) 0 0 (by ring) m]
    rfl

lemma deltasOf_replicate (P : ℚ) (n : Nat) :
    deltasOf (List.replicate n P) = List.replicate (n - 1) 0 := by
  cases n with
  | zero => rfl
  | succ m =>
    have hmin : min m (m + 1) = m := by omega
    simp [deltasOf, zipWith_replicate_min, hmin]

lemma rsiSeries_replicate (P : ℚ) (n : Nat) :
    rsiSeries (List.replicate n P) = none :: List.replicate (n - 1) (some 50) := by
  have hup : upOf (List.replicate n P) = List.replicate (n - 1) 0 := by
    simp [upOf, deltasOf_replicate]
  have hdown : downOf (List.replicate n P) = List.replicate (n - 1) 0 := by
    simp [downOf, deltasOf_replicate]
  have hmu : maUpOf (List.replicate n P) = List.replicate (n - 1) 0 := by
    rw [maUpOf, hup, wilderSmooth_replicate_zero]
  have hmd : maDownOf (List.replicate n P) = List.replicate (n - 1) 0 := by
    rw [maDownOf, hdown, wilderSmooth_replicate_zero]
  rw [rsiSeries, hmu, hmd]
  rw [show List.zipWith rsiRaw (List.replicate (n - 1) (0 : ℚ)) (List.replicate (n - 1) 0) =
    List.replicate (n - 1) (rsiRaw 0 0) by simp [zipWith_replicate_min]]
  rw [show maskDownZero (List.replicate (n - 1) (0 : ℚ)) (List.replicate (n - 1) (rsiRaw 0 0)) =
    List.replicate (n - 1) 100 by simp [maskDownZero, zipWith_replicate_min]]
  rw [show maskBothZero (List.replicate (n - 1) (0 : ℚ)) (List.replicate (n - 1) 0)
      (List.replicate (n - 1) 100) = List.replicate (n - 1) 50 by
    simp [maskBothZero, List.zip, zipWith_replicate_min]]
  rw [List.map_replicate]

lemma calculate_rsi_const_table (P : ℚ) (n : Nat) (hn : 1 ≤ n) :
    calculate_rsi [("T", List.replicate n (some P))] =
      [("T", none :: List.replicate (n - 1) (some 50))] := by
  have hskip : derivedSuffixSkip "T" = false := by decide
  obtain ⟨m, rfl⟩ : ∃ m, n = m + 1 := ⟨n - 1, by omega⟩
  rw [calculate_rsi, List.filterMap_cons]
  rw [show (List.replicate (m + 1) (some P) : Col).filterMap id = List.replicate (m + 1) P from
    filterMap_id_replicate_some P (m + 1)]
  simp only [hskip, Bool.false_eq_true, if_false, List.replicate_succ, List.isEmpty_cons,
    if_false, List.filterMap_nil]
  rw [← List.replicate_succ, rsiSeries_replicate]

lemma meanQ_replicate (P : ℚ) (m : Nat) (hm : m ≠ 0) : meanQ (List.replicate m P) = P := by
  unfold meanQ
  rw [List.sum_replicate, List.length_replicate, nsmul_eq_mul]
  exact mul_div_cancel_left₀ P (Nat.cast_ne_zero.mpr hm)

lemma rollingMean_replicate (P : ℚ) (n p : Nat) (hp : 1 ≤ p) :
    rollingMean p (List.replicate n (some P)) = List.replicate n (some P) := by
  rw [rollingMean, rollingApply, List.length_replicate]
  apply List.eq_replicate_iff.mpr
  refine ⟨by simp, ?_⟩
  intro b hb
  obtain ⟨i, hi, rfl⟩ := List.mem_map.mp hb
  rw [List.mem_range] at hi
  simp only [List.take_replicate, List.drop_replicate, filterMap_id_replicate_some]
  set m := min (i + 1) n - (i + 1 - p) with hm
  obtain ⟨k, hk⟩ : ∃ k, m = k + 1 := ⟨m - 1, by omega⟩
  rw [hk, List.replicate_succ]
  simp only [List.isEmpty_cons, if_false, Bool.false_eq_true]
  rw [← List.replicate_succ, meanQ_replicate P (k + 1) (by omega)]

lemma t_ne_maname (p : Nat) : ("T" : String) ≠ "T_MA" ++ toString p := by
  intro h
  have hlen := congrArg String.length h
  rw [String.length_append] at hlen
  simp only [show ("T" : String).length = 1 from rfl,
    show ("T_MA" : String).length = 4 from rfl] at hlen
  omega

lemma t_beq_maname_false (p : Nat) : ("T" == ("T" ++ "_MA" ++ toString p)) = false := by
  have hfold : ("T" ++ "_MA" : String) = "T_MA" := rfl
  rw [hfold]
  exact beq_eq_false_iff_ne.mpr (t_ne_maname p)

lemma add_ma_single (col : Col) (p : Nat) :
    add_moving_average [("T", col)] [p] =
      [("T", col), ("T" ++ "_MA" ++ toString p, rollingMean p col)] := by
  have hskip : maSkip "T" = false := by decide
  rw [add_moving_average]
  simp only [List.map_cons, List.map_nil, List.foldl_cons, List.foldl_nil, hskip,
    Bool.false_eq_true, if_false]
  rw [show getCol? [("T", col)] "T" = some col by rfl]
  simp only [setCol, List.any_cons, List.any_nil, t_beq_maname_false p, Bool.or_false,
    Bool.false_eq_true, if_false, List.cons_append, List.nil_append]

/-- Claim C5 (amended): for a constant price series with value P and n ≥ 1
samples, `add_moving_average` (any period ≥ 1) produces a moving-average
column equal to P at every date, and `calculate_rsi` produces 50 at every
date after the first — the first date's RSI is NaN (absent), because `diff`
has no predecessor there, not 50. -/
theorem c5_constant_series_ma_and_rsi (P : ℚ) (n p : Nat) (hn : 1 ≤ n) (hp : 1 ≤ p) :
    getCol? (add_moving_average [("T", List.replicate n (some P))] [p])
        ("T" ++ "_MA" ++ toString p) = some (List.replicate n (some P)) ∧
      calculate_rsi [("T", List.replicate n (some P))] =
        [("T", none :: List.replicate (n - 1) (some 50))] := by
  refine ⟨?_, calculate_rsi_const_table P n hn⟩
  rw [add_ma_single, getCol?]
  rw [List.find?_cons_of_neg _ (by simp; exact t_ne_maname p)]
  rw [List.find?_cons_of_pos _ (by simp)]
  rw [rollingMean_replicate P n p hp]
  rfl

/-- Witness for C5 (amended) at P = 5, n = 2, p = 3: the MA column is
constant 5 and the RSI column is [NaN, 50]. -/
theorem c5_constant_series_ma_and_rsi_witness :
    getCol? (add_moving_average [("T", List.replicate 2 (some (5 : ℚ)))] [3]) "T_MA3" =
        some [some 5, some 5] ∧
      calculate_rsi [("T", List.replicate 2 (some (5 : ℚ)))] = [("T", [none, some 50])] := by
  have h := c5_constant_series_ma_and_rsi 5 2 3 (by norm_num) (by norm_num)
  have hname : ("T" ++ "_MA" ++ toString 3) = "T_MA3" := by decide
  rw [hname] at h
  exact ⟨h.1, by simpa using h.2⟩

/-- Counterexample for C5 as stated: for the constant series [5, 5] the RSI
column is [NaN, 50] — the value at the first date is absent (NaN), not 50.
(The claim asserts RSI exactly 50 at every date of a constant series.) -/
theorem c5_first_rsi_value_absent :
    calculate_rsi [("T", [some (5 : ℚ), some 5])] = [("T", [none, some 50])] ∧
      ([none, some 50] : Col) ≠ [some 50, some 50] := by
  have h := calculate_rsi_const_table 5 2 (by norm_num)
  exact ⟨by simpa using h, by simp⟩

lemma find?_map_setEntry (name : String) (c : Col) (r : String) (h : name ≠ r) :
    ∀ df : Table,
      List.find? (fun p => p.1 == r)
          (df.map (fun p => if p.1 == name then (name, c) else p)) =
        List.find? (fun p => p.1 == r) df := by
  intro df
  have hnr : (name == r) = false := beq_eq_false_iff_ne.mpr h
  induction df with
  | nil => rfl
  | cons q qs ih =>
    by_cases hq : (q.1 == name) = true
    · have hq' : q.1 = name := by simpa using hq
      have hqr : (q.1 == r) = false := by rw [hq']; exact hnr
      rw [List.map_cons, if_pos hq]
      rw [List.find?_cons_of_neg _ (by simp [hnr]), List.find?_cons_of_neg _ (by simp [hqr])]
      exact ih
    · rw [List.map_cons, if_neg hq]
      by_cases hqr : (q.1 == r) = true
      · rw [List.find?_cons_of_pos _ (by simp [hqr]), List.find?_cons_of_pos _ (by simp [hqr])]
      · rw [List.find?_cons_of_neg _ (by simpa using hqr),
          List.find?_cons_of_neg _ (by simpa using hqr)]
        exact ih

lemma find?_append_nonmatching (name : String) (c : Col) (r : String) (h : name ≠ r) :
    ∀ df : Table,
      List.find? (fun p => p.1 == r) (df ++ [(name, c)]) =
        List.find? (fun p => p.1 == r) df := by
  intro df
  have hnr : (name == r) = false := beq_eq_false_iff_ne.mpr h
  induction df with
  | nil =>
    rw [List.nil_append]
    rw [List.find?_cons_of_neg _ (by simp [hnr])]
  | cons q qs ih =>
    rw [List.cons_append]
    by_cases hqr : (q.1 == r) = true
    · rw [List.find?_cons_of_pos _ (by simp [hqr]), List.find?_cons_of_pos _ (by simp [hqr])]
    · rw [List.find?_cons_of_neg _ (by simpa using hqr),
        List.find?_cons_of_neg _ (by simpa using hqr)]
      exact ih

lemma getCol?_setCol_ne (df : Table) (name : String) (c : Col) (r : String) (h : name ≠ r) :
    getCol? (setCol df name c) r = getCol? df r := by
  unfold setCol getCol?
  split
  · rw [find?_map_setEntry name c r h df]
  · rw [find?_append_nonmatching name c r h df]

lemma foldl_preserve {α β : Type} (P : α → Prop) (f : α → β → α) (l : List β)
    (hstep : ∀ a b, P a → P (f a b)) : ∀ a, P a → P (l.foldl f a) := by
  induction l with
  | nil => intro a ha; exact ha
  | cons x xs ih => intro a ha; exact ih (f a x) (hstep a x ha)

lemma isPrefixOf_append_self (l t : List Char) : l.isPrefixOf (l ++ t) = true := by
  induction l with
  | nil => simp [List.isPrefixOf]
  | cons c cs ih => simp [List.isPrefixOf, ih]

lemma charsHasSub_sandwich (pat : List Char) (hpat : pat ≠ []) :
    ∀ (l1 l2 : List Char), charsHasSub pat (l1 ++ (pat ++ l2)) = true := by
  intro l1 l2
  induction l1 with
  | nil =>
    rw [List.nil_append]
    cases pat with
    | nil => exact absurd rfl hpat
    | cons p pr =>
      rw [List.cons_append, charsHasSub, ← List.cons_append, isPrefixOf_append_self]
      rfl
  | cons c cs ih =>
    rw [List.cons_append, charsHasSub, ih]
    simp

lemma maSkip_generated (t : String) (p : Nat) : maSkip (t ++ "_MA" ++ toString p) = true := by
  unfold maSkip strHasSub
  have hdata : (t ++ "_MA" ++ toString p).data =
      t.data ++ ("_MA".data ++ (toString p).data) := by
    rw [String.data_append, String.data_append, List.append_assoc]
  rw [hdata, charsHasSub_sandwich "_MA".data (by decide) t.data (toString p).data]
  rfl

lemma strEndsWithB_append (s suf : String) : strEndsWithB (s ++ suf) suf = true := by
  unfold strEndsWithB
  rw [String.data_append, List.reverse_append, isPrefixOf_append_self]

lemma derivedSuffixSkip_high (t : String) : derivedSuffixSkip (t ++ "_52w_high") = true := by
  unfold derivedSuffixSkip
  rw [strEndsWithB_append]
  simp

lemma derivedSuffixSkip_low (t : String) : derivedSuffixSkip (t ++ "_52w_low") = true := by
  unfold derivedSuffixSkip
  rw [strEndsWithB_append]
  simp

lemma add_moving_average_preserves_raw (df : Table) (ps : List Nat) (r : String)
    (hr : maSkip r = false) :
    getCol? (add_moving_average df ps) r = getCol? df r := by
  unfold add_moving_average
  refine foldl_preserve (fun acc => getCol? acc r = getCol? df r) _
    (df.map (fun p => p.1)) ?_ df rfl
  intro acc ticker hacc
  by_cases hskip : maSkip ticker = true
  · simpa [hskip] using hacc
  · simp only [hskip, Bool.false_eq_true, if_false]
    refine foldl_preserve (fun acc2 => getCol? acc2 r = getCol? df r) _ ps ?_ acc hacc
    intro acc2 period hacc2
    cases hg : getCol? acc2 ticker with
    | none => simpa [hg] using hacc2
    | some c =>
      simp only [hg]
      have hne : (ticker ++ "_MA" ++ toString period) ≠ r := by
        intro he
        rw [← he, maSkip_generated ticker period] at hr
        exact absurd hr (by decide)
      rw [getCol?_setCol_ne _ _ _ _ hne]
      exact hacc2

lemma add_52w_high_low_preserves_raw (df : Table) (r : String)
    (hr : derivedSuffixSkip r = false) :
    getCol? (add_52w_high_low df) r = getCol? df r := by
  unfold add_52w_high_low
  refine foldl_preserve (fun acc => getCol? acc r = getCol? df r) _
    (df.map (fun p => p.1)) ?_ df rfl
  intro acc ticker hacc
  by_cases hskip : derivedSuffixSkip ticker = true
  · simpa [hskip] using hacc
  · simp only [hskip, Bool.false_eq_true, if_false]
    have hneh : (ticker ++ "_52w_high") ≠ r := by
      intro he
      exact absurd (derivedSuffixSkip_high ticker) (by rw [he, hr]; simp)
    have hnel : (ticker ++ "_52w_low") ≠ r := by
      intro he
      exact absurd (derivedSuffixSkip_low ticker) (by rw [he, hr]; simp)
    cases hg : getCol? acc ticker with
    | none =>
      simp only [hg]
      exact hacc
    | some c =>
      simp only [hg]
      cases hg2 : getCol? (setCol acc (ticker ++ "_52w_high") (rollingMax 252 c)) ticker with
      | none =>
        simp only [hg2]
        rw [getCol?_setCol_ne _ _ _ _ hneh]
        exact hacc
      | some c2 =>
        simp only [hg2]
        rw [getCol?_setCol_ne _ _ _ _ hnel, getCol?_setCol_ne _ _ _ _ hneh]
        exact hacc

/-- Claim C3 (amended): `add_moving_average` and `add_52w_high_low` extend
the caller's table in place — the source assigns columns onto its argument
and returns the same object, so after the call the caller's table IS the
extended table, not an untouched copy — while every raw ticker column (one
not matching the respective derived-name test) is unchanged in the result. -/
theorem c3_raw_columns_preserved_in_place (df : Table) (ps : List Nat) :
    (∀ r, maSkip r = false →
      getCol? (add_moving_average df ps) r = getCol? df r) ∧
    (∀ r, derivedSuffixSkip r = false →
      getCol? (add_52w_high_low df) r = getCol? df r) ∧
    callerTableAfterAddMA df ps = add_moving_average df ps ∧
    callerTableAfterAdd52w df = add_52w_high_low df :=
  ⟨fun r hr => add_moving_average_preserves_raw df ps r hr,
   fun r hr => add_52w_high_low_preserves_raw df r hr, rfl, rfl⟩

/-- Witness for C3 (amended) on the one-column table "A" = [1]: the raw
column "A" is unchanged by both functions. -/
theorem c3_raw_columns_preserved_in_place_witness :
    maSkip "A" = false ∧ derivedSuffixSkip "A" = false ∧
      getCol? (add_moving_average [("A", [some 1])] [2]) "A" =
        getCol? [("A", [some 1])] "A" ∧
      getCol? (add_52w_high_low [("A", [some 1])]) "A" = getCol? [("A", [some 1])] "A" :=
  ⟨by decide, by decide,
   (c3_raw_columns_preserved_in_place [("A", [some 1])] [2]).1 "A" (by decide),
   (c3_raw_columns_preserved_in_place [("A", [some 1])] [2]).2.1 "A" (by decide)⟩

/-- Counterexample for C3 as stated: the caller's table after
`add_moving_average` (the same object the source mutated and returned) is
not the original table — a column was appended in place. -/
theorem c3_caller_table_mutated :
    callerTableAfterAddMA [("A", [some 1])] [2] ≠ [("A", [some 1])] := by
  intro h
  have h2 : (callerTableAfterAddMA [("A", [some 1])] [2]).length = 2 := by decide
  rw [h] at h2
  simp at h2

lemma simStep_invested_mono (w : Wallet) (start : Date) (st : SimState) (row : Row)
    (h : 0 ≤ w.contribution_amount) :
    st.invested ≤ (w.simStep start st row).1.invested := by
  unfold Wallet.simStep
  dsimp only
  split_ifs with hc hp
  · dsimp only
    linarith
  · exact le_refl _
  · exact le_refl _

lemma runSim_invested_chain (w : Wallet) (start : Date)
    (h : 0 ≤ w.contribution_amount) :
    ∀ (rows : List Row) (st : SimState),
      List.Chain' (· ≤ ·) (st.invested :: (w.runSim start st rows).map (fun o => o.2.2)) := by
  intro rows
  induction rows with
  | nil => intro st; simp [Wallet.runSim]
  | cons r rs ih =>
    intro st
    rw [Wallet.runSim]
    rw [List.map_cons]
    refine List.chain'_cons.mpr ⟨?_, ?_⟩
    · exact simStep_invested_mono w start st r h
    · exact ih (w.simStep start st r).1

/-- Claim C8 (amended): for a wallet whose contribution amount is
nonnegative, the Invested Capital sequence output by `simulate_portfolio` is
non-decreasing from the first date to the last, for every input series. -/
theorem c8_invested_capital_monotone (w : Wallet) (price_df : List Row)
    (h : 0 ≤ w.contribution_amount) :
    List.Chain' (· ≤ ·) ((w.simulate_portfolio price_df).map (fun o => o.2.2)) := by
  unfold Wallet.simulate_portfolio
  cases hs : sortRows price_df with
  | nil => simp
  | cons first rest =>
    dsimp only
    exact (runSim_invested_chain w first.1 h (first :: rest) _).tail

/-- Witness for C8 (amended): 1000 initial, +100 Monthly, prices 10 on
2023-01-01 and 2023-02-01 — the invested-capital sequence is non-decreasing. -/
theorem c8_invested_capital_monotone_witness :
    0 ≤ (100 : ℚ) ∧ List.Chain' (· ≤ ·)
      (((⟨1000, 100, Freq.monthly⟩ : Wallet).simulate_portfolio
        [(⟨2023, 1, 1⟩, 10), (⟨2023, 2, 1⟩, 10)]).map (fun o => o.2.2)) :=
  ⟨by norm_num, c8_invested_capital_monotone ⟨1000, 100, Freq.monthly⟩
    [(⟨2023, 1, 1⟩, 10), (⟨2023, 2, 1⟩, 10)] (by norm_num)⟩

/-- Counterexample for C8 as stated: nothing in the code constrains the
contribution amount to be nonnegative (the sidebar number inputs accept
negative values); with contribution −100 the invested capital falls from 100
to 0 between the two dates. -/
theorem c8_invested_capital_can_decrease :
    ¬ List.Chain' (· ≤ ·)
      (((⟨100, -100, Freq.monthly⟩ : Wallet).simulate_portfolio
        [(⟨2023, 1, 1⟩, 10), (⟨2023, 2, 1⟩, 10)]).map (fun o => o.2.2)) := by
  have heval : ((⟨100, -100, Freq.monthly⟩ : Wallet).simulate_portfolio
      [(⟨2023, 1, 1⟩, 10), (⟨2023, 2, 1⟩, 10)]).map (fun o => o.2.2) = [100, 0] := by
    have hfreq : Freq.monthly ≠ Freq.noneFreq := by decide
    norm_num [Wallet.simulate_portfolio, sortRows, List.insertionSort, List.orderedInsert,
      Wallet.runSim, Wallet.simStep, Wallet.get_next_contribution_date, addMonths,
      daysInMonth, isLeap, rowLe, dateLe, hfreq]
  intro hch
  rw [heval] at hch
  have h100 : (100 : ℚ) ≤ 0 := (List.chain'_cons.mp hch).1
  linarith

lemma dateLt_of_dateLe_ne (a b : Date) (hle : dateLe a b) (hne : a ≠ b) : dateLt a b := by
  obtain ⟨ay, am, ad⟩ := a
  obtain ⟨by', bm, bd⟩ := b
  have hne' : ¬(ay = by' ∧ am = bm ∧ ad = bd) := by
    rintro ⟨h1, h2, h3⟩
    exact hne (by simp [h1, h2, h3])
  unfold dateLe at hle
  unfold dateLt
  simp only at hle ⊢
  omega

lemma sorted_rowLt_of_sorted_nodup (l : List Row) (hs : List.Sorted rowLe l)
    (hnd : List.Pairwise (fun a b : Row => a.1 ≠ b.1) l) : List.Sorted rowLt l := by
  have hand := List.Pairwise.and hs hnd
  exact hand.imp (fun hab => dateLt_of_dateLe_ne _ _ hab.1 hab.2)

lemma sortRows_eq_of_perm (l1 l2 : List Row) (hp : l1.Perm l2)
    (hnd : (l1.map (fun r => r.1)).Nodup) : sortRows l1 = sortRows l2 := by
  have hperm : (sortRows l1).Perm (sortRows l2) :=
    (List.perm_insertionSort rowLe l1).trans (hp.trans (List.perm_insertionSort rowLe l2).symm)
  have hnd0 : List.Pairwise (fun a b : Row => a.1 ≠ b.1) l1 := List.pairwise_map.mp hnd
  have hsym : Symmetric (fun a b : Row => a.1 ≠ b.1) := fun _ _ hab => hab.symm
  have hnd1 : List.Pairwise (fun a b : Row => a.1 ≠ b.1) (sortRows l1) :=
    ((List.perm_insertionSort rowLe l1).pairwise_iff (fun hab => hsym hab)).mpr hnd0
  have hnd2 : List.Pairwise (fun a b : Row => a.1 ≠ b.1) (sortRows l2) :=
    (((List.perm_insertionSort rowLe l2).trans hp.symm).pairwise_iff
      (fun hab => hsym hab)).mpr hnd0
  have hlt1 : List.Sorted rowLt (sortRows l1) :=
    sorted_rowLt_of_sorted_nodup _ (List.sorted_insertionSort rowLe l1) hnd1
  have hlt2 : List.Sorted rowLt (sortRows l2) :=
    sorted_rowLt_of_sorted_nodup _ (List.sorted_insertionSort rowLe l2) hnd2
  exact List.eq_of_perm_of_sorted hperm hlt1 hlt2

lemma runSim_dates (w : Wallet) (start : Date) :
    ∀ (rows : List Row) (st : SimState),
      (w.runSim start st rows).map (fun o => o.1) = rows.map (fun r => r.1) := by
  intro rows
  induction rows with
  | nil => intro st; rfl
  | cons r rs ih =>
    intro st
    rw [Wallet.runSim, List.map_cons, List.map_cons, ih]
    rfl

lemma simulate_dates_sorted (w : Wallet) (df : List Row) :
    List.Sorted dateLe ((w.simulate_portfolio df).map (fun o => o.1)) := by
  unfold Wallet.simulate_portfolio
  cases hs : sortRows df with
  | nil => simp
  | cons first rest =>
    dsimp only
    rw [runSim_dates]
    have hsorted : List.Sorted rowLe (sortRows df) := List.sorted_insertionSort rowLe df
    rw [hs] at hsorted
    exact List.Pairwise.map _ (fun a b hab => hab) hsorted

/-- Claim C10 (amended): for input tables whose dates are pairwise distinct,
`simulate_portfolio` is invariant under row reordering (the input is sorted
by date before simulation, and with distinct dates the sorted sequence is
unique), and the output rows are always in ascending (non-strict) date
order.  With duplicate dates the stable sort preserves input order of the
tied rows, so reorderings can change the output. -/
theorem c10_order_invariance_distinct_dates (w : Wallet) (df1 df2 : List Row)
    (hp : df1.Perm df2) (hnd : (df1.map (fun r => r.1)).Nodup) :
    w.simulate_portfolio df1 = w.simulate_portfolio df2 ∧
      List.Sorted dateLe ((w.simulate_portfolio df1).map (fun o => o.1)) := by
  constructor
  · unfold Wallet.simulate_portfolio
    rw [sortRows_eq_of_perm df1 df2 hp hnd]
  · exact simulate_dates_sorted w df1

/-- Witness for C10 (amended): two orderings of the same two distinct-date
rows give identical simulation output, in ascending date order. -/
theorem c10_order_invariance_distinct_dates_witness :
    ([(⟨2023, 1, 2⟩, 5), (⟨2023, 1, 1⟩, 7)] : List Row).Perm
        [(⟨2023, 1, 1⟩, 7), (⟨2023, 1, 2⟩, 5)] ∧
      ((⟨100, 0, Freq.monthly⟩ : Wallet).simulate_portfolio
          [(⟨2023, 1, 2⟩, 5), (⟨2023, 1, 1⟩, 7)] =
        (⟨100, 0, Freq.monthly⟩ : Wallet).simulate_portfolio
          [(⟨2023, 1, 1⟩, 7), (⟨2023, 1, 2⟩, 5)]) ∧
      List.Sorted dateLe
        (((⟨100, 0, Freq.monthly⟩ : Wallet).simulate_portfolio
          [(⟨2023, 1, 2⟩, 5), (⟨2023, 1, 1⟩, 7)]).map (fun o => o.1)) := by
  have h := c10_order_invariance_distinct_dates ⟨100, 0, Freq.monthly⟩
    [(⟨2023, 1, 2⟩, 5), (⟨2023, 1, 1⟩, 7)] [(⟨2023, 1, 1⟩, 7), (⟨2023, 1, 2⟩, 5)]
    (by decide) (by decide)
  exact ⟨by decide, h.1, h.2⟩

/-- Counterexample for C10 as stated: with two rows sharing one date but
different prices, the two orderings are permutations of each other yet
produce different outputs — the stable sort keeps the tied rows in input
order, so the price sequence (and the shares bought at the first row)
differs. -/
theorem c10_duplicate_dates_not_invariant :
    ([(⟨2023, 1, 1⟩, 1), (⟨2023, 1, 1⟩, 2)] : List Row).Perm
        [(⟨2023, 1, 1⟩, 2), (⟨2023, 1, 1⟩, 1)] ∧
      (⟨100, 0, Freq.monthly⟩ : Wallet).simulate_portfolio
          [(⟨2023, 1, 1⟩, 1), (⟨2023, 1, 1⟩, 2)] ≠
        (⟨100, 0, Freq.monthly⟩ : Wallet).simulate_portfolio
          [(⟨2023, 1, 1⟩, 2), (⟨2023, 1, 1⟩, 1)] := by
  have hfreq : Freq.monthly ≠ Freq.noneFreq := by decide
  have h1 : (⟨100, 0, Freq.monthly⟩ : Wallet).simulate_portfolio
      [(⟨2023, 1, 1⟩, 1), (⟨2023, 1, 1⟩, 2)] =
      [(⟨2023, 1, 1⟩, 100, 100), (⟨2023, 1, 1⟩, 200, 100)] := by
    norm_num [Wallet.simulate_portfolio, sortRows, List.insertionSort, List.orderedInsert,
      Wallet.runSim, Wallet.simStep, Wallet.get_next_contribution_date, addMonths,
      daysInMonth, isLeap, rowLe, dateLe, hfreq]
  have h2 : (⟨100, 0, Freq.monthly⟩ : Wallet).simulate_portfolio
      [(⟨2023, 1, 1⟩, 2), (⟨2023, 1, 1⟩, 1)] =
      [(⟨2023, 1, 1⟩, 100, 100), (⟨2023, 1, 1⟩, 50, 100)] := by
    norm_num [Wallet.simulate_portfolio, sortRows, List.insertionSort, List.orderedInsert,
      Wallet.runSim, Wallet.simStep, Wallet.get_next_contribution_date, addMonths,
      daysInMonth, isLeap, rowLe, dateLe, hfreq]
  refine ⟨by decide, ?_⟩
  rw [h1, h2]
  intro h
  simp only [List.cons.injEq, Prod.mk.injEq] at h
  norm_num at h
